import Mathlib

/-!
Verification of the quickstart-tag-differ core (`src/utils.ts`):
the doc-tag extractor (`processFile`) and the three-pass differ
(`findDocTagDiffs`, `createDocTagDiff`).  Strings are modelled as
lists of characters; JavaScript regex matching of the two marker
patterns, `String.split('\n')`, `String.trim`, Node's `path.extname`
and the diff library's `createTwoFilesPatch` are modelled explicitly
below, each next to the definition that uses it.
-/

namespace TagDiffer

/-- Strings from the TypeScript source are modelled as lists of characters. -/
abbrev Str := List Char

/-- Coerce a Lean string literal into the character-list model. -/
def str (s : String) : Str := s.data

/-- If `lit` is a literal leading part of `l`, return the remainder of `l`. -/
def dropPref : Str → Str → Option Str
  | [], l => some l
  | _, [] => none
  | a :: as, b :: bs => if a = b then dropPref as bs else none

/-- Greedy capture of `([^\]]+)\]` at the head of `rest`: the maximal run of
non-`]` characters, which must be nonempty and followed by a `]`. -/
def captureAfter (rest : Str) : Option Str :=
  let run := rest.takeWhile (fun c => c ≠ ']')
  let rem := rest.dropWhile (fun c => c ≠ ']')
  if run = [] then none else if rem = [] then none else some run

/-- Model of JavaScript `line.match(regex)` for a regex of shape
`lit([^\]]+)\]`: try each position left to right, returning the first
successful capture (JS leftmost-match semantics). -/
def findMarker (lit : Str) : Str → Option Str
  | [] => none
  | c :: cs =>
    match dropPref lit (c :: cs) with
    | some rest =>
      match captureAfter rest with
      | some cap => some cap
      | none => findMarker lit cs
    | none => findMarker lit cs

/-- Model of `line.match(DOC_TAG_START_REGEX)`, regex `\[START ([^\]]+)\]`
(utils.ts line 96), returning the captured tag name. -/
def startName (line : Str) : Option Str := findMarker (str "[START ") line

/-- Model of `line.match(DOC_TAG_END_REGEX)`, regex `\[END ([^\]]+)\]`
(utils.ts line 97), returning the captured tag name. -/
def endName (line : Str) : Option Str := findMarker (str "[END ") line

/-- Model of JavaScript `text.split('\n')`: always at least one piece,
empty trailing piece after a final newline. -/
def splitNl : Str → List Str
  | [] => [[]]
  | c :: cs =>
    if c = '\n' then [] :: splitNl cs
    else
      match splitNl cs with
      | [] => [[c]]
      | h :: t => (c :: h) :: t

/-- Model of JavaScript `String.prototype.trim`: strip leading and trailing
whitespace characters. -/
def trimChars (s : Str) : Str :=
  ((s.dropWhile Char.isWhitespace).reverse.dropWhile Char.isWhitespace).reverse

/-- The `DocTag` interface of utils.ts (lines 6-12). -/
structure DocTag where
  filePath : Str
  codeStartLine : Nat
  codeEndLine : Nat
  codeContents : Str
  tagName : Str
deriving DecidableEq

/-- The scanner's open-tag state: the fields of the mutable `currentTag`
that are populated by a START match (utils.ts lines 117-122); `codeEndLine`
is only ever set at the moment the completed tag is pushed, so an open
`currentTag` is exactly a value of this shape. -/
structure OpenTag where
  codeStartLine : Nat
  tagName : Str
  codeContents : Str
deriving DecidableEq

/-- The error thrown at utils.ts lines 132-136 (`Missing end tag for start
tag in file .. at line ..`), carrying the data interpolated into the message. -/
structure MalformedTagError where
  filePath : Str
  startLine : Nat
deriving DecidableEq

/-- One iteration of the `fileLines.forEach` body (utils.ts lines 113-131):
given the current line, its 0-based index and the open-tag state, return the
new state and the tags emitted (zero or one). A START match always wins and
(re)opens the tag context; an END match closes it only when the open tag's
name is exactly the captured name, otherwise the line is accumulated as
content when a tag is open. -/
def processLine (filePath : Str) (index : Nat) (line : Str) (st : Option OpenTag) :
    Option OpenTag × List DocTag :=
  match startName line with
  | some n => (some ⟨index + 1, n, []⟩, [])
  | none =>
    match st with
    | some cur =>
      match endName line with
      | some n =>
        if cur.tagName = n then
          (none, [⟨filePath, cur.codeStartLine, index + 1, trimChars cur.codeContents, cur.tagName⟩])
        else
          (some ⟨cur.codeStartLine, cur.tagName, cur.codeContents ++ line ++ [Char.ofNat 10]⟩, [])
      | none =>
        (some ⟨cur.codeStartLine, cur.tagName, cur.codeContents ++ line ++ [Char.ofNat 10]⟩, [])
    | none => (none, [])

/-- The whole `forEach` loop: fold `processLine` over the lines, threading
the open-tag state and concatenating emitted tags in order. -/
def scanLines (filePath : Str) : List Str → Nat → Option OpenTag → Option OpenTag × List DocTag
  | [], _, st => (st, [])
  | l :: ls, index, st =>
    let p := processLine filePath index l st
    let r := scanLines filePath ls (index + 1) p.1
    (r.1, p.2 ++ r.2)

/-- `processFile` (utils.ts lines 107-138), with the file contents passed in
place of the `fs.readFileSync` call: split into lines, scan, and fail with
the missing-end-tag error when a tag is still open at end of file (the
`currentTag.codeStartLine && !currentTag.codeEndLine` check; an open
`currentTag` never has `codeEndLine` set, see `OpenTag`). -/
def processFile (filePath : Str) (fileText : Str) : Except MalformedTagError (List DocTag) :=
  match (scanLines filePath (splitNl fileText) 0 none).1 with
  | some cur => Except.error ⟨filePath, cur.codeStartLine⟩
  | none => Except.ok (scanLines filePath (splitNl fileText) 0 none).2

/-- Model of Node `path.extname` (posix), used at utils.ts line 197: the
part of the basename from its last `.` to the end; empty when the basename
has no `.` or its only `.` is its first character. -/
def extname (p : Str) : Str :=
  let b := (p.reverse.takeWhile (fun c => c ≠ '/')).reverse
  let revTail := b.reverse.takeWhile (fun c => c ≠ '.')
  if revTail.length = b.length then []
  else if revTail.length + 1 = b.length then []
  else '.' :: revTail.reverse

/-- The `type` field of `DocTagDiff` (utils.ts line 21). -/
inductive DiffType where
  | added
  | removed
  | changed
deriving DecidableEq

/-- The `changeType` field of `DocTagDiff` (utils.ts line 17). -/
inductive ChangeType where
  | file_path
  | line_number
  | code_contents
deriving DecidableEq

/-- The `DocTagDiff` interface of utils.ts (lines 14-22); optional fields
are `Option`s defaulting to `none`. -/
structure DocTagDiff where
  filePath : Str
  tagName : Str
  changeType : ChangeType
  codeContentsDiff : Option Str := none
  codeStartLine : Option Nat := none
  codeEndLine : Option Nat := none
  type : DiffType
deriving DecidableEq

/-- Modelled from the spec: the external diff library's
`createTwoFilesPatch(oldPath, newPath, oldStr, newStr)` (utils.ts line 84).
The spec says only that the result is "a textual unified-diff-style patch
between old and new content", so it is modelled as a textual packaging of
its four arguments. -/
def createTwoFilesPatch (oldPath newPath oldStr newStr : Str) : Str :=
  str "--- " ++ oldPath ++ str "\n+++ " ++ newPath ++
    str "\n-" ++ oldStr ++ str "\n+" ++ newStr

/-- The options object passed to `createDocTagDiff` (utils.ts lines 27-32). -/
structure CreateOpts where
  includeChangedTags : Bool
  includeFilePathChanges : Bool
  includeLineNumberChanges : Bool
  includeCodeContentsChanges : Bool

/-- `createDocTagDiff` (utils.ts lines 24-94): three independent checks on a
matched old/new pair, each pushing one `changed` diff when its fields differ
and its option gates are on. -/
def createDocTagDiff (oldTag newTag : DocTag) (o : CreateOpts) : List DocTagDiff :=
  (if oldTag.filePath ≠ newTag.filePath ∧ o.includeChangedTags = true ∧
      o.includeFilePathChanges = true then
    [{ filePath := newTag.filePath, tagName := newTag.tagName,
       codeStartLine := some newTag.codeStartLine, codeEndLine := some newTag.codeEndLine,
       changeType := ChangeType.file_path, type := DiffType.changed }]
  else []) ++
  (if (oldTag.codeStartLine ≠ newTag.codeStartLine ∨ oldTag.codeEndLine ≠ newTag.codeEndLine) ∧
      o.includeChangedTags = true ∧ o.includeLineNumberChanges = true then
    [{ filePath := newTag.filePath, tagName := newTag.tagName,
       codeStartLine := some newTag.codeStartLine, codeEndLine := some newTag.codeEndLine,
       changeType := ChangeType.line_number, type := DiffType.changed }]
  else []) ++
  (if oldTag.codeContents ≠ newTag.codeContents ∧ o.includeChangedTags = true ∧
      o.includeCodeContentsChanges = true then
    [{ filePath := newTag.filePath, tagName := newTag.tagName,
       changeType := ChangeType.code_contents,
       codeStartLine := some newTag.codeStartLine, codeEndLine := some newTag.codeEndLine,
       codeContentsDiff := some (createTwoFilesPatch oldTag.filePath newTag.filePath
         oldTag.codeContents newTag.codeContents),
       type := DiffType.changed }]
  else [])

/-- The options object of `findDocTagDiffs` (utils.ts lines 155-158);
`.includes(x)` is modelled as list membership. -/
structure DiffOptions where
  includedTypes : List DiffType
  includedChangeTypes : List ChangeType

/-- First loop of `findDocTagDiffs` (utils.ts lines 173-189): for each old
tag with no new tag of the same `tagName` and the same full `filePath`,
push a `removed`/`code_contents` diff when both gates are on. -/
def removedPassFull (oldTags newTags : List DocTag) (options : DiffOptions) : List DocTagDiff :=
  oldTags.flatMap fun oldTag =>
    match newTags.find? (fun tag =>
        decide (tag.tagName = oldTag.tagName ∧ tag.filePath = oldTag.filePath)) with
    | some _ => []
    | none =>
      if DiffType.removed ∈ options.includedTypes ∧
          ChangeType.code_contents ∈ options.includedChangeTypes then
        [{ filePath := oldTag.filePath, tagName := oldTag.tagName,
           changeType := ChangeType.code_contents, type := DiffType.removed }]
      else []

/-- Second loop of `findDocTagDiffs` (utils.ts lines 191-217): for each new
tag, look up an old tag with the same `tagName` and the same file extension;
when none exists push an `added`/`code_contents` diff (gated), otherwise
compare the pair via `createDocTagDiff`. -/
def addedChangedPass (oldTags newTags : List DocTag) (options : DiffOptions) : List DocTagDiff :=
  newTags.flatMap fun newTag =>
    match oldTags.find? (fun tag =>
        decide (tag.tagName = newTag.tagName ∧ extname tag.filePath = extname newTag.filePath)) with
    | none =>
      if DiffType.added ∈ options.includedTypes ∧
          ChangeType.code_contents ∈ options.includedChangeTypes then
        [{ filePath := newTag.filePath, tagName := newTag.tagName,
           codeStartLine := some newTag.codeStartLine, codeEndLine := some newTag.codeEndLine,
           changeType := ChangeType.code_contents, type := DiffType.added }]
      else []
    | some oldTag =>
      createDocTagDiff oldTag newTag
        { includeChangedTags := decide (DiffType.changed ∈ options.includedTypes),
          includeFilePathChanges := decide (ChangeType.file_path ∈ options.includedChangeTypes),
          includeLineNumberChanges := decide (ChangeType.line_number ∈ options.includedChangeTypes),
          includeCodeContentsChanges :=
            decide (ChangeType.code_contents ∈ options.includedChangeTypes) }

/-- Third loop of `findDocTagDiffs` (utils.ts lines 219-230): for each old
tag whose `tagName` appears on no new tag at all, push another
`removed`/`code_contents` diff (gated). -/
def removedPassNameOnly (oldTags newTags : List DocTag) (options : DiffOptions) : List DocTagDiff :=
  oldTags.flatMap fun oldTag =>
    match newTags.find? (fun tag => decide (tag.tagName = oldTag.tagName)) with
    | some _ => []
    | none =>
      if DiffType.removed ∈ options.includedTypes ∧
          ChangeType.code_contents ∈ options.includedChangeTypes then
        [{ filePath := oldTag.filePath, tagName := oldTag.tagName,
           changeType := ChangeType.code_contents, type := DiffType.removed }]
      else []

/-- `findDocTagDiffs` (utils.ts lines 152-233): the three loops pushing into
one output array, in source order. -/
def findDocTagDiffs (oldTags newTags : List DocTag) (options : DiffOptions) : List DocTagDiff :=
  removedPassFull oldTags newTags options ++
    addedChangedPass oldTags newTags options ++
    removedPassNameOnly oldTags newTags options

/-- All type and change categories enabled (the action's default). -/
def allOptions : DiffOptions :=
  ⟨[DiffType.added, DiffType.removed, DiffType.changed],
   [ChangeType.file_path, ChangeType.line_number, ChangeType.code_contents]⟩

/-! ### Helper lemmas -/

theorem flatMap_single {α β : Type} (l : List α) (g : α → β) :
    l.flatMap (fun a => [g a]) = l.map g := by
  induction l with
  | nil => rfl
  | cons a t ih => simp [ih]

theorem find?_isSome_of_mem {α : Type} {p : α → Bool} {l : List α} {a : α}
    (ha : a ∈ l) (hp : p a = true) : ∃ b, l.find? p = some b :=
  Option.isSome_iff_exists.mp (List.find?_isSome.mpr ⟨a, ha, hp⟩)

theorem createDocTagDiff_self (t : DocTag) (o : CreateOpts) : createDocTagDiff t t o = [] := by
  simp [createDocTagDiff]

theorem createDocTagDiff_changed {a b : DocTag} {o : CreateOpts} {d : DocTagDiff}
    (hd : d ∈ createDocTagDiff a b o) : d.type = DiffType.changed := by
  unfold createDocTagDiff at hd
  rcases List.mem_append.mp hd with h | h
  · rcases List.mem_append.mp h with h | h <;>
      (split at h
       · rw [List.mem_singleton.mp h]
       · cases h)
  · split at h
    · rw [List.mem_singleton.mp h]
    · cases h

theorem createDocTagDiff_no_contents {a b : DocTag} {o : CreateOpts} {d : DocTagDiff}
    (ho : o.includeCodeContentsChanges = false) (hd : d ∈ createDocTagDiff a b o) :
    d.changeType ≠ ChangeType.code_contents := by
  unfold createDocTagDiff at hd
  rcases List.mem_append.mp hd with h | h
  · rcases List.mem_append.mp h with h | h <;>
      (split at h
       · rw [List.mem_singleton.mp h]; simp
       · cases h)
  · split at h
    · rename_i hcond
      rw [ho] at hcond
      simp at hcond
    · cases h

/-! ### Claims -/

/-- C9: parsing a file whose three lines are `// [START greet]`,
`console.log("hi")`, `// [END greet]` yields exactly one tag record with
tag name `greet`, start line 1, end line 3, and content `console.log("hi")`
(marker lines excluded, content trimmed). -/
theorem c9_extraction_example :
    processFile (str "sample.js")
        (str "// [START greet]\nconsole.log(\"hi\")\n// [END greet]") =
      Except.ok [⟨str "sample.js", 1, 3, str "console.log(\"hi\")", str "greet"⟩] := rfl

/-- C10: a line containing both a START and an END marker is treated solely
as a START: the scanner (re)opens the open-tag context with the captured
START name and never closes a tag on that line; consequently a file whose
only markers are a START and its matching END on one line fails extraction
with the missing-end-tag error instead of emitting a record. -/
theorem c10_start_precedence :
    (∀ (filePath : Str) (index : Nat) (line : Str) (st : Option OpenTag) (n : Str),
        startName line = some n → (endName line).isSome = true →
        processLine filePath index line st = (some ⟨index + 1, n, []⟩, [])) ∧
      processFile (str "f.js") (str "x [START a] [END a]") =
        Except.error ⟨str "f.js", 1⟩ := by
  constructor
  · intro filePath index line st n hs _
    unfold processLine
    rw [hs]
  · rfl

/-- Witness for `c10_start_precedence`, at the concrete line
`x [START a] [END a]`. -/
theorem c10_start_precedence_witness :
    startName (str "x [START a] [END a]") = some (str "a") ∧
      (endName (str "x [START a] [END a]")).isSome = true ∧
      processLine (str "f.js") 0 (str "x [START a] [END a]") none =
        (some ⟨1, str "a", []⟩, []) :=
  ⟨by decide, by decide,
    c10_start_precedence.1 (str "f.js") 0 (str "x [START a] [END a]") none (str "a")
      (by decide) (by decide)⟩

/-- C1 counterexample: in the rename scenario (same tag name and content,
file path `a.js` changed to `b.js`) the differ emits TWO diffs — a
removed/code_contents diff from the full-path removal pass and the
changed/file_path diff — not exactly one, and a `removed` diff IS emitted
for the pair. -/
theorem c1_rename_counterexample :
    findDocTagDiffs [⟨str "a.js", 1, 2, str "c", str "X"⟩]
        [⟨str "b.js", 1, 2, str "c", str "X"⟩] allOptions =
      [{ filePath := str "a.js", tagName := str "X",
         changeType := ChangeType.code_contents, type := DiffType.removed },
       { filePath := str "b.js", tagName := str "X", changeType := ChangeType.file_path,
         codeStartLine := some 1, codeEndLine := some 2, type := DiffType.changed }] := by
  decide

/-- C1 (amended): in the rename scenario, for any equal start/end lines and
equal content, diffing with all categories enabled yields exactly two diffs:
a removed/code_contents diff for the old tag (the first removal pass matches
on full file path, so the rename looks like a removal to it) followed by the
changed/file_path diff; no `added` diff is emitted for the pair. -/
theorem c1_rename_two_diffs (s e : Nat) (c : Str) :
    findDocTagDiffs [⟨str "a.js", s, e, c, str "X"⟩]
        [⟨str "b.js", s, e, c, str "X"⟩] allOptions =
      [{ filePath := str "a.js", tagName := str "X",
         changeType := ChangeType.code_contents, type := DiffType.removed },
       { filePath := str "b.js", tagName := str "X", changeType := ChangeType.file_path,
         codeStartLine := some s, codeEndLine := some e, type := DiffType.changed }] := by
  simp [findDocTagDiffs, removedPassFull, addedChangedPass, removedPassNameOnly,
    createDocTagDiff, allOptions, List.find?,
    show decide ((str "b.js" : Str) = str "a.js") = false from rfl,
    show decide (extname (str "a.js") = extname (str "b.js")) = true from rfl,
    show ¬ ((str "a.js" : Str) = str "b.js") from by decide]

/-- C2 counterexample: a collection `T` holding two distinct tags with the
same tag name `X` and the same extension `.js` but different file paths is
NOT diffed reflexively: `findDocTagDiffs T T` with all categories enabled
returns a spurious changed/file_path diff (the extension-based lookup pairs
the second tag with the first one). -/
theorem c2_reflexivity_counterexample :
    findDocTagDiffs
        [⟨str "a.js", 1, 2, str "p", str "X"⟩, ⟨str "b.js", 1, 2, str "p", str "X"⟩]
        [⟨str "a.js", 1, 2, str "p", str "X"⟩, ⟨str "b.js", 1, 2, str "p", str "X"⟩]
        allOptions =
      [{ filePath := str "b.js", tagName := str "X", changeType := ChangeType.file_path,
         codeStartLine := some 1, codeEndLine := some 2, type := DiffType.changed }] := by
  decide

/-- C2 (amended): diffing is reflexive for every collection `T` in which the
pair (tag name, file extension) identifies a tag uniquely — i.e. any two
members sharing a tag name and a file extension are equal records; the
reflexivity claim fails precisely for collections with two distinct tags of
the same name and extension (see the counterexample). -/
theorem c2_reflexive_of_unique_key (T : List DocTag)
    (h : ∀ t ∈ T, ∀ u ∈ T, u.tagName = t.tagName →
      extname u.filePath = extname t.filePath → u = t) :
    findDocTagDiffs T T allOptions = [] := by
  unfold findDocTagDiffs
  have h1 : removedPassFull T T allOptions = [] := by
    unfold removedPassFull
    apply List.flatMap_eq_nil_iff.mpr
    intro t ht
    obtain ⟨b, hb⟩ :=
      find?_isSome_of_mem (p := fun tag =>
        decide (tag.tagName = t.tagName ∧ tag.filePath = t.filePath)) ht (by simp)
    rw [hb]
  have h3 : removedPassNameOnly T T allOptions = [] := by
    unfold removedPassNameOnly
    apply List.flatMap_eq_nil_iff.mpr
    intro t ht
    obtain ⟨b, hb⟩ :=
      find?_isSome_of_mem (p := fun tag => decide (tag.tagName = t.tagName)) ht (by simp)
    rw [hb]
  have h2 : addedChangedPass T T allOptions = [] := by
    unfold addedChangedPass
    apply List.flatMap_eq_nil_iff.mpr
    intro t ht
    obtain ⟨b, hb⟩ :=
      find?_isSome_of_mem (p := fun tag =>
        decide (tag.tagName = t.tagName ∧ extname tag.filePath = extname t.filePath)) ht (by simp)
    have hp := List.find?_some hb
    simp only [decide_eq_true_eq] at hp
    have hbt : b = t := h t ht b (List.mem_of_find?_eq_some hb) hp.1 hp.2
    subst hbt
    rw [hb]
    exact createDocTagDiff_self b _
  rw [h1, h2, h3]
  rfl

/-- Witness for `c2_reflexive_of_unique_key`: a two-element collection whose
tags share a name but have different extensions diffs to the empty list. -/
theorem c2_reflexive_witness :
    findDocTagDiffs
        [⟨str "a.js", 1, 2, str "p", str "X"⟩, ⟨str "b.kt", 3, 4, str "q", str "X"⟩]
        [⟨str "a.js", 1, 2, str "p", str "X"⟩, ⟨str "b.kt", 3, 4, str "q", str "X"⟩]
        allOptions = [] :=
  c2_reflexive_of_unique_key
    [⟨str "a.js", 1, 2, str "p", str "X"⟩, ⟨str "b.kt", 3, 4, str "q", str "X"⟩]
    (by decide)

/-- C4 counterexample: with `includedTypes = [added]` but `code_contents`
absent from `includedChangeTypes`, an unmatched new tag yields NO added diff
(and symmetrically no removed diff for an unmatched old tag with
`includedChangeTypes = [file_path]`): the added/removed emissions are gated
on the `code_contents` change category too, so the categories do not gate
independently. -/
theorem c4_gating_counterexample :
    findDocTagDiffs [] [⟨str "b.js", 1, 2, str "c", str "X"⟩]
        ⟨[DiffType.added], []⟩ = [] ∧
      findDocTagDiffs [⟨str "a.js", 1, 2, str "c", str "X"⟩] []
        ⟨[DiffType.removed], [ChangeType.file_path]⟩ = [] := by
  constructor <;> decide

/-- C4 (amended): an `added` (resp. `removed`) diff for an unmatched tag is
emitted exactly when its type is in `includedTypes` AND `code_contents` is in
`includedChangeTypes`; disabling the `code_contents` change category
suppresses added, removed, and changed/code_contents diffs alike, so every
diff that survives is a `changed` diff whose changeType is not
`code_contents`. -/
theorem c4_gating :
    (∀ (oldTags newTags : List DocTag) (options : DiffOptions),
        DiffType.added ∈ options.includedTypes →
        ChangeType.code_contents ∈ options.includedChangeTypes →
        ∀ t ∈ newTags,
          oldTags.find? (fun tag =>
            decide (tag.tagName = t.tagName ∧ extname tag.filePath = extname t.filePath)) = none →
          ({ filePath := t.filePath, tagName := t.tagName,
             codeStartLine := some t.codeStartLine, codeEndLine := some t.codeEndLine,
             changeType := ChangeType.code_contents, type := DiffType.added } : DocTagDiff) ∈
            findDocTagDiffs oldTags newTags options) ∧
    (∀ (oldTags newTags : List DocTag) (options : DiffOptions),
        DiffType.removed ∈ options.includedTypes →
        ChangeType.code_contents ∈ options.includedChangeTypes →
        ∀ t ∈ oldTags,
          newTags.find? (fun tag =>
            decide (tag.tagName = t.tagName ∧ tag.filePath = t.filePath)) = none →
          ({ filePath := t.filePath, tagName := t.tagName,
             changeType := ChangeType.code_contents, type := DiffType.removed } : DocTagDiff) ∈
            findDocTagDiffs oldTags newTags options) ∧
    (∀ (oldTags newTags : List DocTag) (options : DiffOptions),
        ChangeType.code_contents ∉ options.includedChangeTypes →
        ∀ d ∈ findDocTagDiffs oldTags newTags options,
          d.type = DiffType.changed ∧ d.changeType ≠ ChangeType.code_contents) := by
  refine ⟨?_, ?_, ?_⟩
  · intro oldTags newTags options hAdd hCC t ht hfind
    unfold findDocTagDiffs
    have hmem : (⟨t.filePath, t.tagName, ChangeType.code_contents, none,
        some t.codeStartLine, some t.codeEndLine, DiffType.added⟩ : DocTagDiff) ∈
        addedChangedPass oldTags newTags options := by
      unfold addedChangedPass
      apply List.mem_flatMap.mpr
      refine ⟨t, ht, ?_⟩
      simp only [hfind]
      rw [if_pos ⟨hAdd, hCC⟩]
      exact List.mem_singleton.mpr rfl
    exact List.mem_append.mpr (Or.inl (List.mem_append.mpr (Or.inr hmem)))
  · intro oldTags newTags options hRem hCC t ht hfind
    unfold findDocTagDiffs
    have hmem : (⟨t.filePath, t.tagName, ChangeType.code_contents, none,
        none, none, DiffType.removed⟩ : DocTagDiff) ∈
        removedPassFull oldTags newTags options := by
      unfold removedPassFull
      apply List.mem_flatMap.mpr
      refine ⟨t, ht, ?_⟩
      simp only [hfind]
      rw [if_pos ⟨hRem, hCC⟩]
      exact List.mem_singleton.mpr rfl
    exact List.mem_append.mpr (Or.inl (List.mem_append.mpr (Or.inl hmem)))
  · intro oldTags newTags options hcc d hd
    unfold findDocTagDiffs at hd
    rcases List.mem_append.mp hd with h | h3p
    · rcases List.mem_append.mp h with h1p | h2p
      · exfalso
        unfold removedPassFull at h1p
        rcases List.mem_flatMap.mp h1p with ⟨t, _, hm⟩
        split at hm
        · cases hm
        · rw [if_neg (fun hc => hcc hc.2)] at hm
          cases hm
      · unfold addedChangedPass at h2p
        rcases List.mem_flatMap.mp h2p with ⟨t, _, hm⟩
        split at hm
        · rw [if_neg (fun hc => hcc hc.2)] at hm
          cases hm
        · refine ⟨createDocTagDiff_changed hm, createDocTagDiff_no_contents ?_ hm⟩
          exact decide_eq_false hcc
    · exfalso
      unfold removedPassNameOnly at h3p
      rcases List.mem_flatMap.mp h3p with ⟨t, _, hm⟩
      split at hm
      · cases hm
      · rw [if_neg (fun hc => hcc hc.2)] at hm
        cases hm

/-- Witness for `c4_gating`: with all categories enabled (so both the
`added` type and the `code_contents` change category are on), a single new
tag with empty old collection yields its added diff in the output. -/
theorem c4_gating_witness :
    DiffType.added ∈ allOptions.includedTypes ∧
      ChangeType.code_contents ∈ allOptions.includedChangeTypes ∧
      ({ filePath := str "b.js", tagName := str "X",
         codeStartLine := some 1, codeEndLine := some 2,
         changeType := ChangeType.code_contents, type := DiffType.added } : DocTagDiff) ∈
        findDocTagDiffs [] [⟨str "b.js", 1, 2, str "c", str "X"⟩] allOptions :=
  ⟨by decide, by decide,
    c4_gating.1 [] [⟨str "b.js", 1, 2, str "c", str "X"⟩] allOptions (by decide) (by decide)
      ⟨str "b.js", 1, 2, str "c", str "X"⟩ (by decide) rfl⟩

theorem addedChangedPass_not_removed {oldTags newTags : List DocTag} {options : DiffOptions}
    {d : DocTagDiff} (hd : d ∈ addedChangedPass oldTags newTags options) :
    d.type ≠ DiffType.removed := by
  unfold addedChangedPass at hd
  rcases List.mem_flatMap.mp hd with ⟨t, _, hm⟩
  split at hm
  · split at hm
    · rw [List.mem_singleton.mp hm]
      simp
    · cases hm
  · rw [createDocTagDiff_changed hm]
    simp

/-- C5: for an old tag whose tag name appears on no new tag at all (hence
also no full-path match), diffing with all categories enabled emits two
identical removed/code_contents diffs for that single old tag — one from
the full-path removal pass and one from the name-only removal pass. -/
theorem c5_double_removal (t : DocTag) (newTags : List DocTag)
    (h : ∀ u ∈ newTags, u.tagName ≠ t.tagName) :
    (findDocTagDiffs [t] newTags allOptions).filter
        (fun d => decide (d.type = DiffType.removed)) =
      [⟨t.filePath, t.tagName, ChangeType.code_contents, none, none, none, DiffType.removed⟩,
       ⟨t.filePath, t.tagName, ChangeType.code_contents, none, none, none, DiffType.removed⟩] := by
  have hfind1 : newTags.find? (fun tag =>
      decide (tag.tagName = t.tagName) && decide (tag.filePath = t.filePath)) = none := by
    apply List.find?_eq_none.mpr
    intro u hu
    simp only [Bool.and_eq_true, decide_eq_true_eq]
    exact fun hc => h u hu hc.1
  have hfind3 : newTags.find? (fun tag => decide (tag.tagName = t.tagName)) = none := by
    apply List.find?_eq_none.mpr
    intro u hu
    simp only [decide_eq_true_eq]
    exact h u hu
  have h1 : removedPassFull [t] newTags allOptions =
      [⟨t.filePath, t.tagName, ChangeType.code_contents, none, none, none, DiffType.removed⟩] := by
    simp [removedPassFull, hfind1, allOptions]
  have h3 : removedPassNameOnly [t] newTags allOptions =
      [⟨t.filePath, t.tagName, ChangeType.code_contents, none, none, none, DiffType.removed⟩] := by
    simp [removedPassNameOnly, hfind3, allOptions]
  have h2 : (addedChangedPass [t] newTags allOptions).filter
      (fun d => decide (d.type = DiffType.removed)) = [] := by
    apply List.filter_eq_nil_iff.mpr
    intro d hd
    simpa using addedChangedPass_not_removed hd
  unfold findDocTagDiffs
  rw [List.filter_append, List.filter_append, h1, h3, h2]
  simp

/-- Witness for `c5_double_removal`: one old tag diffed against the empty
new collection yields exactly the two removal diffs. -/
theorem c5_double_removal_witness :
    (findDocTagDiffs [⟨str "a.js", 1, 2, str "c", str "X"⟩] [] allOptions).filter
        (fun d => decide (d.type = DiffType.removed)) =
      [⟨str "a.js", str "X", ChangeType.code_contents, none, none, none, DiffType.removed⟩,
       ⟨str "a.js", str "X", ChangeType.code_contents, none, none, none, DiffType.removed⟩] :=
  c5_double_removal ⟨str "a.js", 1, 2, str "c", str "X"⟩ []
    (by intro u hu; cases hu)

/-- C6: diffing an empty old collection against any non-empty new collection
with all categories enabled returns exactly one diff per new tag, in order:
an added/code_contents diff carrying the new tag's file path, tag name and
start/end lines; nothing else is emitted. -/
theorem c6_added_per_new_tag (newTags : List DocTag) (_hne : newTags ≠ []) :
    findDocTagDiffs [] newTags allOptions =
      newTags.map (fun t =>
        ⟨t.filePath, t.tagName, ChangeType.code_contents, none,
         some t.codeStartLine, some t.codeEndLine, DiffType.added⟩) := by
  unfold findDocTagDiffs removedPassFull addedChangedPass removedPassNameOnly
  rw [List.flatMap_nil, List.flatMap_nil]
  simp only [List.find?_nil, List.nil_append, List.append_nil, allOptions]
  rw [show (fun (newTag : DocTag) =>
    (match (none : Option DocTag) with
     | none =>
       if DiffType.added ∈ [DiffType.added, DiffType.removed, DiffType.changed] ∧
           ChangeType.code_contents ∈
             [ChangeType.file_path, ChangeType.line_number, ChangeType.code_contents] then
         [({ filePath := newTag.filePath, tagName := newTag.tagName,
             codeStartLine := some newTag.codeStartLine, codeEndLine := some newTag.codeEndLine,
             changeType := ChangeType.code_contents, type := DiffType.added } : DocTagDiff)]
       else []
     | some oldTag =>
       createDocTagDiff oldTag newTag
         { includeChangedTags := decide (DiffType.changed ∈
             [DiffType.added, DiffType.removed, DiffType.changed]),
           includeFilePathChanges := decide (ChangeType.file_path ∈
             [ChangeType.file_path, ChangeType.line_number, ChangeType.code_contents]),
           includeLineNumberChanges := decide (ChangeType.line_number ∈
             [ChangeType.file_path, ChangeType.line_number, ChangeType.code_contents]),
           includeCodeContentsChanges := decide (ChangeType.code_contents ∈
             [ChangeType.file_path, ChangeType.line_number, ChangeType.code_contents]) })) =
    (fun (newTag : DocTag) =>
      [(⟨newTag.filePath, newTag.tagName, ChangeType.code_contents, none,
        some newTag.codeStartLine, some newTag.codeEndLine, DiffType.added⟩ : DocTagDiff)]) from by
      funext newTag
      simp]
  exact flatMap_single newTags _

/-- Witness for `c6_added_per_new_tag` at a singleton new collection. -/
theorem c6_added_per_new_tag_witness :
    findDocTagDiffs [] [⟨str "b.js", 3, 7, str "c", str "X"⟩] allOptions =
      [⟨str "b.js", str "X", ChangeType.code_contents, none, some 3, some 7,
        DiffType.added⟩] :=
  c6_added_per_new_tag [⟨str "b.js", 3, 7, str "c", str "X"⟩] (by decide)

/-- C8: a content-only change (same tag name `X`, same path `a.js`, equal
start/end lines, content `foo` changed to `bar`) yields exactly one diff:
changed/code_contents carrying the patch generated from the old content
`foo` and the new content `bar`. -/
theorem c8_content_only_change (s e : Nat) :
    findDocTagDiffs [⟨str "a.js", s, e, str "foo", str "X"⟩]
        [⟨str "a.js", s, e, str "bar", str "X"⟩] allOptions =
      [⟨str "a.js", str "X", ChangeType.code_contents,
        some (createTwoFilesPatch (str "a.js") (str "a.js") (str "foo") (str "bar")),
        some s, some e, DiffType.changed⟩] := by
  simp [findDocTagDiffs, removedPassFull, addedChangedPass, removedPassNameOnly,
    createDocTagDiff, allOptions, List.find?,
    show decide ((str "X" : Str) = str "X" ∧ (str "a.js" : Str) = str "a.js") = true from rfl,
    show decide ((str "X" : Str) = str "X" ∧
      extname (str "a.js") = extname (str "a.js")) = true from rfl,
    show decide ((str "X" : Str) = str "X") = true from rfl,
    show ¬ ((str "foo" : Str) = str "bar") from by decide]

theorem scanLines_append (fp : Str) (xs ys : List Str) (idx : Nat) (st : Option OpenTag) :
    scanLines fp (xs ++ ys) idx st =
      ((scanLines fp ys (idx + xs.length) (scanLines fp xs idx st).1).1,
       (scanLines fp xs idx st).2 ++
         (scanLines fp ys (idx + xs.length) (scanLines fp xs idx st).1).2) := by
  induction xs generalizing idx st with
  | nil => simp [scanLines]
  | cons l ls ih =>
    simp only [List.cons_append, scanLines, List.length_cons, List.append_eq]
    rw [ih]
    rw [show idx + 1 + ls.length = idx + (ls.length + 1) from by omega]
    simp [List.append_assoc]

theorem stay_open (fp : Str) (ls : List Str) : ∀ (idx : Nat) (cur : OpenTag),
    (∀ l ∈ ls, startName l = none ∧ endName l ≠ some cur.tagName) →
    ∃ c : OpenTag, (scanLines fp ls idx (some cur)).1 = some c ∧
      c.tagName = cur.tagName ∧ c.codeStartLine = cur.codeStartLine := by
  induction ls with
  | nil => exact fun idx cur _ => ⟨cur, rfl, rfl, rfl⟩
  | cons l t ih =>
    intro idx cur hall
    obtain ⟨hs, he⟩ := hall l (List.mem_cons_self l t)
    cases hend : endName l with
    | none =>
      obtain ⟨c, hc1, hc2, hc3⟩ :=
        ih (idx + 1) ⟨cur.codeStartLine, cur.tagName, cur.codeContents ++ l ++ [Char.ofNat 10]⟩
          (fun x hx => hall x (List.mem_cons_of_mem l hx))
      refine ⟨c, ?_, hc2, hc3⟩
      simp only [scanLines, processLine, hs, hend]
      exact hc1
    | some n =>
      have hne : ¬ cur.tagName = n := fun hq => he (by rw [hend, hq])
      obtain ⟨c, hc1, hc2, hc3⟩ :=
        ih (idx + 1) ⟨cur.codeStartLine, cur.tagName, cur.codeContents ++ l ++ [Char.ofNat 10]⟩
          (fun x hx => hall x (List.mem_cons_of_mem l hx))
      refine ⟨c, ?_, hc2, hc3⟩
      simp only [scanLines, processLine, hs, hend, if_neg hne]
      exact hc1

/-- C3 counterexample: a START (`A`) that is replaced by a later START (`B`)
which is itself closed does NOT make extraction fail — the dropped tag `A`
has no recognized END, yet the file parses successfully and only `B`'s
record is emitted. -/
theorem c3_replaced_start_counterexample :
    processFile (str "f.js") (str "[START A]\n[START B]\n[END B]") =
      Except.ok [⟨str "f.js", 2, 3, str "", str "B"⟩] := rfl

/-- C3 (amended): if a line carries a START marker capturing name `N` and no
later line contains any START marker nor a recognized matching END for `N`,
extraction fails with the missing-end-tag error identifying that START's
1-based line; when instead a later START replaces the open tag and the
replacement chain is closed, the earlier START is silently dropped and
extraction succeeds (see the counterexample). -/
theorem c3_unclosed_last_start (filePath fileText : Str) (i : Nat) (N : Str)
    (hi : i < (splitNl fileText).length)
    (hstart : startName ((splitNl fileText).getD i []) = some N)
    (hafter : ∀ l ∈ (splitNl fileText).drop (i + 1),
      startName l = none ∧ endName l ≠ some N) :
    processFile filePath fileText = Except.error ⟨filePath, i + 1⟩ := by
  have hlen : ((splitNl fileText).take i).length = i := by
    rw [List.length_take]
    omega
  have hdecomp : splitNl fileText =
      (splitNl fileText).take i ++
        ((splitNl fileText).getD i [] :: (splitNl fileText).drop (i + 1)) := by
    conv_lhs => rw [← List.take_append_drop i (splitNl fileText)]
    rw [List.getD_eq_getElem _ _ hi, List.drop_eq_getElem_cons hi]
  obtain ⟨c, hc1, hc2, hc3⟩ :=
    stay_open filePath ((splitNl fileText).drop (i + 1)) (i + 1) ⟨i + 1, N, []⟩ hafter
  unfold processFile
  rw [hdecomp, scanLines_append]
  simp only [scanLines, processLine, hstart, hlen, Nat.zero_add]
  rw [hc1]
  show (Except.error ⟨filePath, c.codeStartLine⟩ : Except MalformedTagError (List DocTag)) =
    Except.error ⟨filePath, i + 1⟩
  rw [hc3]

/-- Witness for `c3_unclosed_last_start`: a two-line file whose first line
opens tag `a` and whose second line is ordinary content fails with the
missing-end-tag error at line 1. -/
theorem c3_unclosed_last_start_witness :
    processFile (str "f.js") (str "[START a]\nx") = Except.error ⟨str "f.js", 1⟩ :=
  c3_unclosed_last_start (str "f.js") (str "[START a]\nx") 0 (str "a")
    (by decide) (by decide) (by decide)

theorem scan_open_char (fp : Str) : ∀ (lines : List Str) (idx : Nat) (st : Option OpenTag)
    (cur : OpenTag), (scanLines fp lines idx st).1 = some cur →
    (∃ k, k < lines.length ∧ startName (lines.getD k []) = some cur.tagName ∧
        cur.codeStartLine = idx + k + 1 ∧
        ∀ j, k < j → j < lines.length →
          startName (lines.getD j []) = none ∧ endName (lines.getD j []) ≠ some cur.tagName) ∨
    (∃ cur₀, st = some cur₀ ∧ cur.tagName = cur₀.tagName ∧
        cur.codeStartLine = cur₀.codeStartLine ∧
        ∀ j, j < lines.length →
          startName (lines.getD j []) = none ∧ endName (lines.getD j []) ≠ some cur₀.tagName) := by
  intro lines
  induction lines with
  | nil =>
    intro idx st cur h
    right
    exact ⟨cur, h, rfl, rfl, fun j hj => absurd hj (by simp)⟩
  | cons l ls ih =>
    intro idx st cur h
    have h' : (scanLines fp ls (idx + 1) (processLine fp idx l st).1).1 = some cur := h
    rcases ih (idx + 1) (processLine fp idx l st).1 cur h' with
      ⟨k, hk, h1, h2, h3⟩ | ⟨cur₀, he, htn, hcs, hall⟩
    · left
      refine ⟨k + 1, by simpa using Nat.succ_lt_succ hk, ?_, by omega, ?_⟩
      · simpa [List.getD_cons_succ] using h1
      · intro j hj hjl
        cases j with
        | zero => omega
        | succ j' =>
          have := h3 j' (by omega) (by simpa using hjl)
          simpa [List.getD_cons_succ] using this
    · cases hs : startName l with
      | some n =>
        have hpl : (processLine fp idx l st).1 = some ⟨idx + 1, n, []⟩ := by
          simp [processLine, hs]
        rw [hpl] at he
        injection he with he'
        subst he'
        left
        refine ⟨0, by simp, ?_, ?_, ?_⟩
        · rw [List.getD_cons_zero, hs, htn]
        · simpa using hcs
        · intro j hj hjl
          cases j with
          | zero => omega
          | succ j' =>
            have := hall j' (by simpa using hjl)
            refine ⟨by simpa [List.getD_cons_succ] using this.1, ?_⟩
            rw [List.getD_cons_succ, htn]
            exact this.2
      | none =>
        cases st with
        | none =>
          have hpl : (processLine fp idx l (none : Option OpenTag)).1 = none := by
            simp [processLine, hs]
          rw [hpl] at he
          exact Option.noConfusion he
        | some c₀ =>
          cases hend : endName l with
          | some n =>
            by_cases hq : c₀.tagName = n
            · have hpl : (processLine fp idx l (some c₀)).1 = none := by
                simp [processLine, hs, hend, hq]
              rw [hpl] at he
              exact Option.noConfusion he
            · have hpl : (processLine fp idx l (some c₀)).1 =
                  some ⟨c₀.codeStartLine, c₀.tagName,
                    c₀.codeContents ++ l ++ [Char.ofNat 10]⟩ := by
                simp [processLine, hs, hend, hq]
              rw [hpl] at he
              injection he with he'
              subst he'
              right
              refine ⟨c₀, rfl, htn, hcs, ?_⟩
              intro j hjl
              cases j with
              | zero =>
                refine ⟨by rw [List.getD_cons_zero]; exact hs, ?_⟩
                rw [List.getD_cons_zero, hend]
                intro hcon
                injection hcon with hcon'
                exact hq hcon'.symm
              | succ j' =>
                have := hall j' (by simpa using hjl)
                refine ⟨by simpa [List.getD_cons_succ] using this.1, ?_⟩
                rw [List.getD_cons_succ]
                exact this.2
          | none =>
            have hpl : (processLine fp idx l (some c₀)).1 =
                some ⟨c₀.codeStartLine, c₀.tagName,
                  c₀.codeContents ++ l ++ [Char.ofNat 10]⟩ := by
              simp [processLine, hs, hend]
            rw [hpl] at he
            injection he with he'
            subst he'
            right
            refine ⟨c₀, rfl, htn, hcs, ?_⟩
            intro j hjl
            cases j with
            | zero =>
              refine ⟨by rw [List.getD_cons_zero]; exact hs, ?_⟩
              rw [List.getD_cons_zero, hend]
              simp
            | succ j' =>
              have := hall j' (by simpa using hjl)
              refine ⟨by simpa [List.getD_cons_succ] using this.1, ?_⟩
              rw [List.getD_cons_succ]
              exact this.2

theorem scan_tags_lt (fp : Str) : ∀ (lines : List Str) (idx : Nat) (st : Option OpenTag),
    (∀ c, st = some c → c.codeStartLine ≤ idx) →
    ∀ t ∈ (scanLines fp lines idx st).2, t.codeStartLine < t.codeEndLine := by
  intro lines
  induction lines with
  | nil =>
    intro idx st _ t ht
    simp [scanLines] at ht
  | cons l ls ih =>
    intro idx st hinv t ht
    have ht' : t ∈ (processLine fp idx l st).2 ++
        (scanLines fp ls (idx + 1) (processLine fp idx l st).1).2 := ht
    rcases List.mem_append.mp ht' with hmem | hmem
    · cases hs : startName l with
      | some n =>
        rw [show (processLine fp idx l st).2 = [] from by simp [processLine, hs]] at hmem
        cases hmem
      | none =>
        cases st with
        | none =>
          rw [show (processLine fp idx l (none : Option OpenTag)).2 = [] from by
            simp [processLine, hs]] at hmem
          cases hmem
        | some c₀ =>
          cases hend : endName l with
          | some n =>
            by_cases hq : c₀.tagName = n
            · rw [show (processLine fp idx l (some c₀)).2 =
                  [⟨fp, c₀.codeStartLine, idx + 1, trimChars c₀.codeContents, c₀.tagName⟩] from by
                simp [processLine, hs, hend, hq]] at hmem
              rw [List.mem_singleton.mp hmem]
              have := hinv c₀ rfl
              simp only []
              omega
            · rw [show (processLine fp idx l (some c₀)).2 = [] from by
                simp [processLine, hs, hend, hq]] at hmem
              cases hmem
          | none =>
            rw [show (processLine fp idx l (some c₀)).2 = [] from by
              simp [processLine, hs, hend]] at hmem
            cases hmem
    · refine ih (idx + 1) (processLine fp idx l st).1 ?_ t hmem
      intro c hc
      cases hs : startName l with
      | some n =>
        rw [show (processLine fp idx l st).1 = some ⟨idx + 1, n, []⟩ from by
          simp [processLine, hs]] at hc
        injection hc with hc'
        rw [← hc']
      | none =>
        cases st with
        | none =>
          rw [show (processLine fp idx l (none : Option OpenTag)).1 = none from by
            simp [processLine, hs]] at hc
          exact Option.noConfusion hc
        | some c₀ =>
          have hc₀ : c₀.codeStartLine ≤ idx := hinv c₀ rfl
          cases hend : endName l with
          | some n =>
            by_cases hq : c₀.tagName = n
            · rw [show (processLine fp idx l (some c₀)).1 = none from by
                simp [processLine, hs, hend, hq]] at hc
              exact Option.noConfusion hc
            · rw [show (processLine fp idx l (some c₀)).1 =
                  some ⟨c₀.codeStartLine, c₀.tagName,
                    c₀.codeContents ++ l ++ [Char.ofNat 10]⟩ from by
                simp [processLine, hs, hend, hq]] at hc
              injection hc with hc'
              rw [← hc']
              exact Nat.le_succ_of_le hc₀
          | none =>
            rw [show (processLine fp idx l (some c₀)).1 =
                some ⟨c₀.codeStartLine, c₀.tagName,
                  c₀.codeContents ++ l ++ [Char.ofNat 10]⟩ from by
              simp [processLine, hs, hend]] at hc
            injection hc with hc'
            rw [← hc']
            exact Nat.le_succ_of_le hc₀

/-- C7: for every input text in which every line carrying a START marker is
followed, before end of file, by a later line with no START marker whose END
marker captures the same name, extraction is total (returns `Except.ok`,
the missing-end-tag error is unreachable) and every emitted tag record has
`codeStartLine < codeEndLine` (so in particular `codeStartLine = codeEndLine`
can hold only in the vacuous immediate-END-no-content sense). -/
theorem c7_wellformed_total (filePath fileText : Str)
    (h : ∀ i, i < (splitNl fileText).length →
      (startName ((splitNl fileText).getD i [])).isSome = true →
      ∃ j, j < (splitNl fileText).length ∧ i < j ∧
        startName ((splitNl fileText).getD j []) = none ∧
        endName ((splitNl fileText).getD j []) = startName ((splitNl fileText).getD i [])) :
    ∃ tags, processFile filePath fileText = Except.ok tags ∧
      ∀ t ∈ tags, t.codeStartLine < t.codeEndLine ∨
        (t.codeStartLine = t.codeEndLine ∧ t.codeContents = []) := by
  cases hst : (scanLines filePath (splitNl fileText) 0 none).1 with
  | some cur =>
    exfalso
    rcases scan_open_char filePath (splitNl fileText) 0 none cur hst with
      ⟨k, hk, h1, _, h3⟩ | ⟨cur₀, he, _, _, _⟩
    · obtain ⟨j, hjl, hkj, hjs, hje⟩ := h k hk (by rw [h1]; rfl)
      obtain ⟨_, hne⟩ := h3 j hkj hjl
      rw [h1] at hje
      exact hne hje
    · exact Option.noConfusion he
  | none =>
    refine ⟨(scanLines filePath (splitNl fileText) 0 none).2, ?_, ?_⟩
    · unfold processFile
      rw [hst]
    · intro t ht
      exact Or.inl (scan_tags_lt filePath (splitNl fileText) 0 none
        (fun c hc => Option.noConfusion hc) t ht)

/-- Witness for `c7_wellformed_total` on the well-formed three-line file
`[START a]` / `x` / `[END a]`. -/
theorem c7_wellformed_total_witness :
    ∃ tags, processFile (str "s.js") (str "[START a]\nx\n[END a]") = Except.ok tags ∧
      ∀ t ∈ tags, t.codeStartLine < t.codeEndLine ∨
        (t.codeStartLine = t.codeEndLine ∧ t.codeContents = []) :=
  c7_wellformed_total (str "s.js") (str "[START a]\nx\n[END a]") (by decide)

end TagDiffer
